import Mathlib

/-!
Verification of the earliest-deployment-timestamp discovery engine
(`src/commands/getTimestamp.ts`).

The embedding is shallow: every function of the source file is translated
into an executable Lean definition.  Remote RPC calls are modelled by a
`Transport` record whose operations return `Except String` values (the
error string plays the role of the thrown JS `Error`'s message, as that is
the only part of an error the engine ever inspects).  The unbounded
pagination loop of the fine locator takes an explicit fuel argument; all
other loops terminate structurally or by a well-founded measure, exactly
as the source loops do on their reachable states.
-/

/-! ## Data model -/

/-- One entry of `getSignaturesForAddress`: a transaction signature together
with its optional `blockTime` (JS `number | null | undefined`). -/
structure SigInfo where
  signature : String
  blockTime : Option Int
deriving DecidableEq, Repr

/-- A transaction of a block: the list of its signatures
(`transaction.signatures`). -/
structure Tx where
  signatures : List String
deriving DecidableEq, Repr

/-- A block as returned by `connection.getBlock`: its transaction list. -/
structure Block where
  transactions : List Tx
deriving DecidableEq, Repr

/-- The remote interface used by the engine, specialised to one program id
(the source always passes the same `programId` to
`getSignaturesForAddress`).  Each operation returns the outcome *after*
the retry wrapper: `Except.error m` is a thrown error with message `m`.
Slots are `Int` because JS numbers admit the negative intermediate values
of the binary search (`high = mid - 1`). -/
structure Transport where
  getSlot : Except String Int
  getBlock : Int → Except String (Option Block)
  getSignaturesForAddress : Option String → Nat → Except String (List SigInfo)

/-! ## Identifier validation (`isValidProgramId`)

`bs58.decode` of a string over the base-58 alphabet yields one zero byte
per leading `'1'` character followed by the big-endian base-256 digits of
the value denoted by the string. -/

/-- The 58-symbol alphabet accepted by the validation regex
`^[1-9A-HJ-NP-Za-km-z]+$`. -/
def base58Alphabet : List Char :=
  "123456789ABCDEFGHJKLMNPQRSTUVWXYZabcdefghijkmnopqrstuvwxyz".toList

/-- Membership in the base-58 alphabet (one character of the regex). -/
def isBase58Char (c : Char) : Bool :=
  base58Alphabet.contains c

/-- Digit value of an alphabet character. -/
def base58DigitVal (c : Char) : Nat :=
  base58Alphabet.indexOf c

/-- Numeric value denoted by a base-58 string (big-endian). -/
def base58Value (cs : List Char) : Nat :=
  cs.foldl (fun acc c => acc * 58 + base58DigitVal c) 0

/-- Number of leading `'1'` characters (each decodes to one zero byte). -/
def leadingOnes : List Char → Nat
  | [] => 0
  | c :: cs => if c = '1' then leadingOnes cs + 1 else 0

/-- Number of base-256 digits of `n`, with an explicit fuel bound so the
definition is structural (the fuel `n` always suffices: a positive number
has at most `n` digits). -/
def byteLenAux : Nat → Nat → Nat
  | 0, _ => 0
  | fuel + 1, n => if n = 0 then 0 else byteLenAux fuel (n / 256) + 1

/-- Number of bytes in the minimal base-256 representation of `n`. -/
def byteLen (n : Nat) : Nat :=
  byteLenAux n n

/-- Length in bytes of `bs58.decode` of a string over the alphabet. -/
def decodedLen (s : String) : Nat :=
  leadingOnes s.toList + byteLen (base58Value s.toList)

/-- Validation `isValidProgramId` from the source: non-empty (JS falsy test), every
character in the base-58 alphabet (the regex), and a decoded length of
exactly 32 bytes.  `bs58.decode` cannot throw once the regex has accepted
the string, so the `try`/`catch` adds nothing. -/
def isValidProgramId (programId : String) : Bool :=
  if programId = "" then false
  else if ¬ (programId.toList.all isBase58Char) then false
  else decide (decodedLen programId = 32)

/-! ## Retry wrapper (`retryOperation`) -/

/-- Outcome of a `retryOperation` run: the surfaced result, the number of
invocations of the wrapped operation, and the total time spent in
`setTimeout` waits. -/
structure RetryResult (α : Type) where
  result : Except String α
  calls : Nat
  totalWaitMs : Nat
deriving Repr

/-- The `while (attempts < maxRetries)` loop of `retryOperation`.  The
operation is attempt-indexed (`op i` is the outcome of the `i+1`-st
invocation); `attempts` counts failures as in the source, `calls` counts
invocations, `waited` accumulates the delays. -/
def retryLoop {α : Type} (op : Nat → Except String α) (maxRetries delayMs : Nat)
    (opName : String) (attempts calls waited : Nat) : RetryResult α :=
  if _h : attempts < maxRetries then
    match op calls with
    | Except.ok a => ⟨Except.ok a, calls + 1, waited⟩
    | Except.error e =>
      if maxRetries ≤ attempts + 1 then ⟨Except.error e, calls + 1, waited⟩
      else retryLoop op maxRetries delayMs opName (attempts + 1) (calls + 1) (waited + delayMs)
  else
    ⟨Except.error (opName ++ " failed after " ++ toString maxRetries ++ " attempts."),
      calls, waited⟩
termination_by maxRetries - attempts
decreasing_by omega

/-- Function `retryOperation` from the source. -/
def retryOperation {α : Type} (op : Nat → Except String α) (maxRetries delayMs : Nat)
    (opName : String) : RetryResult α :=
  retryLoop op maxRetries delayMs opName 0 0 0

/-! ## Coarse locator (`checkSlotForProgramTransactions` and the binary
search loop of `findFirstTimestampBinarySearch`) -/

/-- The body of `checkSlotForProgramTransactions` after the cache lookup:
fetch the block at `slot`; an absent block, an empty transaction list or a
falsy first signature (the JS test `!anySignature` also catches the empty
string) count as "no evidence"; otherwise ask for one signature of the
program strictly before the anchor signature.  Errors of either remote
call propagate (the source `catch` rethrows). -/
def checkSlotCore (T : Transport) (slot : Int) : Except String Bool :=
  match T.getBlock slot with
  | Except.error e => Except.error e
  | Except.ok none => Except.ok false
  | Except.ok (some block) =>
    match block.transactions.head? with
    | none => Except.ok false
    | some tx0 =>
      match tx0.signatures.head? with
      | none => Except.ok false
      | some sig =>
        if sig = "" then Except.ok false
        else
          match T.getSignaturesForAddress (some sig) 1 with
          | Except.error e => Except.error e
          | Except.ok sigs => Except.ok (decide (0 < sigs.length))

/-- Probe `checkSlotForProgramTransactions` with its `foundSignaturesAtSlot`
cache (an association list standing for the JS `Map`): a cache hit is
returned directly, a successful fresh result is recorded. -/
def checkSlot (T : Transport) (slot : Int) (cache : List (Int × Bool)) :
    Except String Bool × List (Int × Bool) :=
  match cache.lookup slot with
  | some b => (Except.ok b, cache)
  | none =>
    match checkSlotCore T slot with
    | Except.ok b => (Except.ok b, (slot, b) :: cache)
    | Except.error e => (Except.error e, cache)

/-- The probe as seen by one fresh query (empty cache). -/
def checkSlotFresh (T : Transport) (slot : Int) : Except String Bool :=
  (checkSlot T slot []).1

/-- The `while (low <= high)` binary-search loop of
`findFirstTimestampBinarySearch`: probe the midpoint
`Math.floor((low + high) / 2)` (Euclidean division by 2 is floor
division); a positive probe records the midpoint and searches lower, a
negative or failed probe searches upper. -/
def coarseLoop (T : Transport) (low high : Int) (best : Option Int)
    (cache : List (Int × Bool)) : Option Int × List (Int × Bool) :=
  if _h : low ≤ high then
    match checkSlot T ((low + high) / 2) cache with
    | (Except.ok true, c) => coarseLoop T low ((low + high) / 2 - 1) (some ((low + high) / 2)) c
    | (Except.ok false, c) => coarseLoop T ((low + high) / 2 + 1) high best c
    | (Except.error _, c) => coarseLoop T ((low + high) / 2 + 1) high best c
  else
    (best, cache)
termination_by (high + 1 - low).toNat
decreasing_by all_goals omega

/-- The same loop over an abstract probe and without the cache; used to
reason about the search once the cache has been discharged. -/
def coarsePure (p : Int → Except String Bool) (low high : Int) (best : Option Int) :
    Option Int :=
  if _h : low ≤ high then
    match p ((low + high) / 2) with
    | Except.ok true => coarsePure p low ((low + high) / 2 - 1) (some ((low + high) / 2))
    | Except.ok false => coarsePure p ((low + high) / 2 + 1) high best
    | Except.error _ => coarsePure p ((low + high) / 2 + 1) high best
  else best
termination_by (high + 1 - low).toNat
decreasing_by all_goals omega

/-- Candidate `firstProgramSlot` as computed by the search: bounds `[1, latestSlot]`,
no candidate and an empty cache initially. -/
def coarseCandidate (T : Transport) : Except String (Option Int) :=
  match T.getSlot with
  | Except.error e => Except.error e
  | Except.ok latestSlot => Except.ok (coarseLoop T 1 latestSlot none []).1

/-! ## Fine locator (`getTimestampFromSlot`) -/

/-- The oldest entry of a page, `signatures[signatures.length - 1]`
(meaningful only for non-empty pages). -/
def lastSigOf (sigs : List SigInfo) : SigInfo :=
  sigs.getLast?.getD ⟨"", none⟩

/-- The `while (moreSignaturesExist)` pagination loop of
`getTimestampFromSlot`.  Each iteration fetches up to 1000 signatures
before the cursor; an empty page stops with the current best; otherwise
the oldest entry's truthy `blockTime` (non-null *and* non-zero, the JS
test `if (batchOldestSignature.blockTime)`) replaces the best and its
signature becomes the next cursor; a page shorter than the limit stops.
A thrown error is caught by the enclosing `try` and yields `null`,
discarding any best found so far.  `fuel` bounds the number of pages (the
source loop is unbounded). -/
def pageLoop (T : Transport) : Nat → Option String → Option Int → Option Int
  | 0, _, best => best
  | fuel + 1, cursor, best =>
    match T.getSignaturesForAddress cursor 1000 with
    | Except.error _ => none
    | Except.ok sigs =>
      if sigs.length = 0 then best
      else
        let best' :=
          match (lastSigOf sigs).blockTime with
          | some t => if t = 0 then best else some t
          | none => best
        if sigs.length < 1000 then best'
        else pageLoop T fuel (some (lastSigOf sigs).signature) best'

/-- Fine locator `getTimestampFromSlot` from the source: fetch the anchor block, take
the first signature of its first transaction as the starting cursor (an
absent block or empty transaction list yields `null`; a missing first
signature makes the cursor `undefined`, i.e. pagination starts from the
tip), then paginate backward. -/
def getTimestampFromSlot (T : Transport) (slot : Int) (fuel : Nat) : Option Int :=
  match T.getBlock slot with
  | Except.error _ => none
  | Except.ok none => none
  | Except.ok (some block) =>
    match block.transactions.head? with
    | none => none
    | some tx0 => pageLoop T fuel tx0.signatures.head? none

/-- Search `findFirstTimestampBinarySearch` from the source: establish the
bounds from `getSlot`, run the binary search, and only when a candidate
slot was recorded run the fine locator on it; otherwise return `null`. -/
def findFirstTimestampBinarySearch (T : Transport) (fuel : Nat) :
    Except String (Option Int) :=
  match coarseCandidate T with
  | Except.error e => Except.error e
  | Except.ok (some slot) => Except.ok (getTimestampFromSlot T slot fuel)
  | Except.ok none => Except.ok none

/-! ### Observation helpers for the fine locator -/

/-- The oldest entry's `blockTime` of a page — the only timestamp the
pagination loop reads from the page. -/
def pageObs (p : List SigInfo) : Option Int :=
  match p.getLast? with
  | some s => s.blockTime
  | none => none

/-- The per-page timestamps the loop actually records: the truthy
(non-null, non-zero) oldest-entry `blockTime`s, in page order. -/
def recordedTimes (ps : List (List SigInfo)) : List Int :=
  ((ps.map pageObs).reduceOption).filter (fun t => t ≠ 0)

/-- The value the loop holds after consuming `ps` starting from `best`:
the last recorded timestamp, or `best` when none was recorded. -/
def lastObservedOr (ps : List (List SigInfo)) (best : Option Int) : Option Int :=
  match (recordedTimes ps).getLast? with
  | some t => some t
  | none => best

/-- The sequence of pages the pagination loop consumes from `cursor`:
`some ps` when the loop reaches its stopping condition (a page shorter
than the limit, the empty page included) within `fuel` pages and without
a transport error, `none` otherwise. -/
def consumedPages? (T : Transport) : Nat → Option String → Option (List (List SigInfo))
  | 0, _ => none
  | fuel + 1, cursor =>
    match T.getSignaturesForAddress cursor 1000 with
    | Except.error _ => none
    | Except.ok sigs =>
      if sigs.length < 1000 then some [sigs]
      else
        match consumedPages? T fuel (some (lastSigOf sigs).signature) with
        | some ps => some (sigs :: ps)
        | none => none

/-- Modelled from the spec: the fine locator started "directly from the
tip" (no cursor), the behaviour §4.4 prescribes when the coarse step
found nothing.  No such call exists in the source, which is what claim
C6 is about. -/
def specFineLocatorFromTip (T : Transport) (fuel : Nat) : Option Int :=
  pageLoop T fuel none none

/-! ## Failover orchestrator (`getTimestamp`) -/

/-- Outcome of a `getTimestamp` run, with two observation counters: how
many times the identifier was validated and how many endpoint searches
(remote work) were started. -/
structure RunResult where
  result : Except String Int
  validations : Nat
  searches : Nat
deriving Repr

/-- The `for (const rpcUrl of endpoints)` loop of `getTimestamp`: per
endpoint, validate the identifier (an invalid one throws inside the
`try`), run the search, and catch any failure into `lastError`; after the
loop, fail with the aggregate message, `lastError?.message || 'Unknown
error'` treating an empty message as unknown (JS falsiness). -/
def getTimestampGo (pid : String) (fuel : Nat) :
    List Transport → Option String → Nat → Nat → RunResult
  | [], lastErr, v, s =>
    ⟨Except.error ("Failed to get timestamp using all configured RPC URLs: " ++
        (match lastErr with
         | some m => if m = "" then "Unknown error" else m
         | none => "Unknown error")), v, s⟩
  | T :: rest, _lastErr, v, s =>
    if isValidProgramId pid then
      match findFirstTimestampBinarySearch T fuel with
      | Except.ok (some t) => ⟨Except.ok t, v + 1, s + 1⟩
      | Except.ok none =>
        getTimestampGo pid fuel rest
          (some ("Could not determine deployment timestamp for program: " ++ pid))
          (v + 1) (s + 1)
      | Except.error e => getTimestampGo pid fuel rest (some e) (v + 1) (s + 1)
    else
      getTimestampGo pid fuel rest (some ("Invalid program ID: " ++ pid)) (v + 1) s

/-- Entry point `getTimestamp` from the source, over a list of endpoint transports. -/
def getTimestamp (pid : String) (endpoints : List Transport) (fuel : Nat) : RunResult :=
  getTimestampGo pid fuel endpoints none 0 0

/-- The failure an endpoint attempt records in `lastError` when its
search does not produce a timestamp: the search's own error, or the
"could not determine" error thrown on a `null` result. -/
def endpointFailureMsg (pid : String) (T : Transport) (fuel : Nat) : Option String :=
  match findFirstTimestampBinarySearch T fuel with
  | Except.error e => some e
  | Except.ok none => some ("Could not determine deployment timestamp for program: " ++ pid)
  | Except.ok (some _) => none

/-! ## Cache soundness -/

/-- Every entry of the probe cache records the fresh probe's answer (the
transport is a function, so re-probing is deterministic). -/
def CacheSound (T : Transport) (cache : List (Int × Bool)) : Prop :=
  ∀ s b, cache.lookup s = some b → checkSlotCore T s = Except.ok b

/-! ## Concrete transports used to instantiate the theorems -/

/-- An endpoint every call to which fails. -/
def trivialTransport : Transport :=
  ⟨Except.error "no rpc", fun _ => Except.error "no rpc", fun _ _ => Except.error "no rpc"⟩

/-- An endpoint whose `getSlot` fails with message "boom". -/
def boomTransport : Transport :=
  ⟨Except.error "boom", fun _ => Except.error "boom", fun _ _ => Except.error "boom"⟩

/-- A stub with latest slot 3 whose evidence boundary is height 2: every
block carries a marker signature and the signature query answers
positively exactly for slots at or after 2. -/
def boundaryTransport : Transport :=
  ⟨Except.ok 3,
   fun s => Except.ok (some ⟨[⟨[if (2 : Int) ≤ s then "yes" else "no"]⟩]⟩),
   fun c _ => Except.ok (if c = some "yes" then [⟨"x", some 1⟩] else [])⟩

/-- A stub with latest slot 2 where no block is available (every coarse
probe sees no evidence) but the signature history from the tip holds one
entry with timestamp 42. -/
def noBlocksTransport : Transport :=
  ⟨Except.ok 2,
   fun _ => Except.ok none,
   fun c _ => Except.ok (match c with | none => [⟨"s0", some 42⟩] | some _ => [])⟩

/-- A stub whose unique block exists but holds no transactions. -/
def emptyBlockTransport : Transport :=
  ⟨Except.ok 1, fun _ => Except.ok (some ⟨[]⟩), fun _ _ => Except.ok []⟩

/-- A full page (limit length) whose entries all carry timestamp 1 and
whose oldest entry is signature "a". -/
def fullPageOne : List SigInfo :=
  List.replicate 999 ⟨"x", some 1⟩ ++ [⟨"a", some 1⟩]

/-- The short page following `fullPageOne` in the rising stub, with the
larger timestamp 5. -/
def risingTail : List SigInfo :=
  [⟨"b", some 5⟩]

/-- A paginated history whose timestamps increase across pages (violating
the newest-first transport contract): first page `fullPageOne`, then
`risingTail`. -/
def risingPagesTransport : Transport :=
  ⟨Except.error "unused", fun _ => Except.error "unused",
   fun c _ =>
     Except.ok (match c with
       | none => fullPageOne
       | some "a" => risingTail
       | some _ => [])⟩

/-- A full page whose entries carry timestamp 9, oldest signature "a". -/
def fullPageNine : List SigInfo :=
  List.replicate 999 ⟨"x", some 9⟩ ++ [⟨"a", some 9⟩]

/-- The short page following `fullPageNine`, with the smaller timestamp
7. -/
def fallingTail : List SigInfo :=
  [⟨"b", some 7⟩]

/-- A well-ordered paginated history: timestamps do not increase across
pages. -/
def fallingPagesTransport : Transport :=
  ⟨Except.error "unused", fun _ => Except.error "unused",
   fun c _ =>
     Except.ok (match c with
       | none => fullPageNine
       | some "a" => fallingTail
       | some _ => [])⟩

/-! ## Helper lemmas -/

theorem checkSlotFresh_eq_core (T : Transport) (s : Int) :
    checkSlotFresh T s = checkSlotCore T s := by
  unfold checkSlotFresh checkSlot
  cases h : checkSlotCore T s <;> simp [List.lookup, h]

theorem checkSlot_sound {T : Transport} {cache : List (Int × Bool)}
    (hc : CacheSound T cache) (slot : Int) :
    ∃ c', checkSlot T slot cache = (checkSlotCore T slot, c') ∧ CacheSound T c' := by
  unfold checkSlot
  cases hl : cache.lookup slot with
  | some b =>
    refine ⟨cache, ?_, hc⟩
    rw [hc slot b hl]
  | none =>
    cases hcore : checkSlotCore T slot with
    | ok b =>
      refine ⟨(slot, b) :: cache, rfl, ?_⟩
      intro s bb hs
      by_cases hsb : s = slot
      · subst hsb
        simp [List.lookup] at hs
        cases hs
        exact hcore
      · have hb : (s == slot) = false := by simp [hsb]
        simp [List.lookup, hb] at hs
        exact hc s bb hs
    | error e => exact ⟨cache, rfl, hc⟩

theorem coarseLoop_eq_pure {T : Transport} :
    ∀ (n : Nat) (low high : Int) (best : Option Int) (cache : List (Int × Bool)),
      (high + 1 - low).toNat = n → CacheSound T cache →
      (coarseLoop T low high best cache).1 = coarsePure (checkSlotCore T) low high best := by
  intro n
  induction n using Nat.strongRecOn with
  | ind n ih =>
    intro low high best cache hn hc
    by_cases h : low ≤ high
    · obtain ⟨c', hcs, hc'⟩ := checkSlot_sound hc ((low + high) / 2)
      rw [coarseLoop, coarsePure, dif_pos h, dif_pos h, hcs]
      cases hcore : checkSlotCore T ((low + high) / 2) with
      | ok b =>
        cases b
        · exact ih _ (by omega) _ _ _ _ rfl hc'
        · exact ih _ (by omega) _ _ _ _ rfl hc'
      | error e => exact ih _ (by omega) _ _ _ _ rfl hc'
    · rw [coarseLoop, coarsePure, dif_neg h, dif_neg h]

theorem coarsePure_all_false {p : Int → Except String Bool} {high : Int}
    (hp : ∀ s, s ≤ high → p s = Except.ok false) :
    ∀ (n : Nat) (low : Int) (best : Option Int),
      (high + 1 - low).toNat = n → coarsePure p low high best = best := by
  intro n
  induction n using Nat.strongRecOn with
  | ind n ih =>
    intro low best hn
    by_cases h : low ≤ high
    · rw [coarsePure, dif_pos h, hp ((low + high) / 2) (by omega)]
      exact ih _ (by omega) _ _ rfl
    · rw [coarsePure, dif_neg h]

theorem coarsePure_boundary {p : Int → Except String Bool} {H : Int}
    (hp : ∀ s, p s = Except.ok (decide (H ≤ s))) :
    ∀ (n : Nat) (low high : Int) (best : Option Int),
      (high + 1 - low).toNat = n → low ≤ H → H ≤ high →
      coarsePure p low high best = some H := by
  intro n
  induction n using Nat.strongRecOn with
  | ind n ih =>
    intro low high best hn hlow hhigh
    have h : low ≤ high := le_trans hlow hhigh
    rw [coarsePure, dif_pos h, hp ((low + high) / 2)]
    by_cases hm : H ≤ (low + high) / 2
    · rw [decide_eq_true hm]
      by_cases hm2 : H ≤ (low + high) / 2 - 1
      · exact ih _ (by omega) _ _ _ rfl hlow hm2
      · have hmid : (low + high) / 2 = H := by omega
        have := @coarsePure_all_false p ((low + high) / 2 - 1)
          (fun s hs => by rw [hp s, decide_eq_false (by omega)])
          ((low + high) / 2 - 1 + 1 - low).toNat low (some ((low + high) / 2)) rfl
        rw [this, hmid]
    · rw [decide_eq_false hm]
      exact ih _ (by omega) _ _ _ rfl (by omega) hhigh

theorem retryLoop_all_fail {α : Type} {op : Nat → Except String α} {errs : Nat → String}
    {maxRetries delayMs : Nat} {opName : String}
    (hop : ∀ i, op i = Except.error (errs i)) :
    ∀ (k attempts calls waited : Nat), maxRetries - attempts = k → attempts < maxRetries →
      retryLoop op maxRetries delayMs opName attempts calls waited =
        ⟨Except.error (errs (calls + (maxRetries - attempts - 1))),
         calls + (maxRetries - attempts),
         waited + (maxRetries - attempts - 1) * delayMs⟩ := by
  intro k
  induction k using Nat.strongRecOn with
  | ind k ih =>
    intro attempts calls waited hk ha
    rw [retryLoop, dif_pos ha, hop calls]
    dsimp only
    by_cases hlast : maxRetries ≤ attempts + 1
    · rw [if_pos hlast]
      have h1 : maxRetries - attempts = 1 := by omega
      rw [h1]
      simp
    · rw [if_neg hlast]
      rw [ih (maxRetries - (attempts + 1)) (by omega) (attempts + 1) (calls + 1)
        (waited + delayMs) rfl (by omega)]
      have e1 : calls + 1 + (maxRetries - (attempts + 1) - 1) =
          calls + (maxRetries - attempts - 1) := by omega
      have e2 : calls + 1 + (maxRetries - (attempts + 1)) =
          calls + (maxRetries - attempts) := by omega
      have e3 : maxRetries - attempts - 1 = maxRetries - (attempts + 1) - 1 + 1 := by omega
      rw [e1, e2]
      congr 1
      rw [e3, Nat.succ_mul]
      ring

theorem lastObservedOr_cons (p : List SigInfo) (ps : List (List SigInfo)) (best : Option Int) :
    lastObservedOr (p :: ps) best =
      lastObservedOr ps
        (match pageObs p with
         | some t => if t = 0 then best else some t
         | none => best) := by
  unfold lastObservedOr recordedTimes
  cases hp : pageObs p with
  | none => simp [hp]
  | some t =>
    by_cases ht : t = 0
    · subst ht
      simp [hp]
    · simp only [List.map_cons, List.reduceOption_cons_of_some, hp, List.filter_cons,
        decide_eq_true_eq, ht, if_pos, decide_not]
      cases hrest : (List.filter (fun t => !decide (t = 0)) (ps.map pageObs).reduceOption) with
      | nil => simp [hrest, ht]
      | cons a l =>
        have hgl : ∃ x, (a :: l).getLast? = some x := by
          cases h : (a :: l).getLast? with
          | some x => exact ⟨x, rfl⟩
          | none => simp at h
        obtain ⟨x, hx⟩ := hgl
        simp [hx, List.getLast?_cons_cons]

theorem getLast?_of_ne_nil {α : Type} {l : List α} (h : l ≠ []) :
    ∃ x, l.getLast? = some x := by
  cases hg : l.getLast? with
  | some x => exact ⟨x, rfl⟩
  | none => exact absurd (List.getLast?_eq_none_iff.mp hg) h

theorem pageLoop_consumed {T : Transport} :
    ∀ (fuel : Nat) (cursor : Option String) (ps : List (List SigInfo)) (best : Option Int),
      consumedPages? T fuel cursor = some ps →
      pageLoop T fuel cursor best = lastObservedOr ps best := by
  intro fuel
  induction fuel with
  | zero => intro cursor ps best h; simp [consumedPages?] at h
  | succ fuel ih =>
    intro cursor ps best h
    rw [consumedPages?] at h
    rw [pageLoop]
    cases hsig : T.getSignaturesForAddress cursor 1000 with
    | error e => rw [hsig] at h; simp at h
    | ok sigs =>
      rw [hsig] at h
      dsimp only at h ⊢
      by_cases hlen : sigs.length < 1000
      · rw [if_pos hlen] at h
        have hps : ps = [sigs] := by
          injection h with h'
          exact h'.symm
        subst hps
        by_cases h0 : sigs.length = 0
        · rw [if_pos h0]
          have hnil : sigs = [] := List.length_eq_zero.mp h0
          subst hnil
          simp [lastObservedOr, recordedTimes, pageObs]
        · rw [if_neg h0, if_pos hlen]
          obtain ⟨x, hx⟩ := @getLast?_of_ne_nil SigInfo sigs
            (fun hnil => h0 (by simp [hnil]))
          rw [lastObservedOr_cons]
          have hobs : pageObs sigs = x.blockTime := by rw [pageObs, hx]
          have hlast : lastSigOf sigs = x := by rw [lastSigOf, hx]; rfl
          rw [hobs, hlast]
          cases hbt : x.blockTime with
          | none => simp [lastObservedOr, recordedTimes]
          | some t =>
            by_cases ht : t = 0 <;> simp [ht, lastObservedOr, recordedTimes]
      · rw [if_neg hlen] at h
        have h0 : ¬ sigs.length = 0 := by omega
        rw [if_neg h0, if_neg hlen]
        cases hrec : consumedPages? T fuel (some (lastSigOf sigs).signature) with
        | none => rw [hrec] at h; simp at h
        | some ps' =>
          rw [hrec] at h
          have hps : ps = sigs :: ps' := by
            injection h with h'
            exact h'.symm
          subst hps
          rw [lastObservedOr_cons]
          obtain ⟨x, hx⟩ := @getLast?_of_ne_nil SigInfo sigs
            (fun hnil => h0 (by simp [hnil]))
          have hobs : pageObs sigs = x.blockTime := by rw [pageObs, hx]
          have hlast : lastSigOf sigs = x := by rw [lastSigOf, hx]; rfl
          rw [hobs, hlast]
          rw [hlast] at hrec
          exact ih _ _ _ hrec

theorem consumedPages_shape {T : Transport} :
    ∀ (fuel : Nat) (cursor : Option String) (ps : List (List SigInfo)),
      consumedPages? T fuel cursor = some ps →
      (∀ p ∈ ps.dropLast, 1000 ≤ p.length) ∧
      ∃ pl, ps.getLast? = some pl ∧ pl.length < 1000 := by
  intro fuel
  induction fuel with
  | zero => intro cursor ps h; simp [consumedPages?] at h
  | succ fuel ih =>
    intro cursor ps h
    rw [consumedPages?] at h
    cases hsig : T.getSignaturesForAddress cursor 1000 with
    | error e => rw [hsig] at h; simp at h
    | ok sigs =>
      rw [hsig] at h
      dsimp only at h
      by_cases hlen : sigs.length < 1000
      · rw [if_pos hlen] at h
        have hps : ps = [sigs] := by injection h with h'; exact h'.symm
        subst hps
        exact ⟨by simp, sigs, by simp, hlen⟩
      · rw [if_neg hlen] at h
        cases hrec : consumedPages? T fuel (some (lastSigOf sigs).signature) with
        | none => rw [hrec] at h; simp at h
        | some ps' =>
          rw [hrec] at h
          have hps : ps = sigs :: ps' := by injection h with h'; exact h'.symm
          subst hps
          obtain ⟨hdrop, pl, hpl, hpllen⟩ := ih _ _ hrec
          cases ps' with
          | nil => simp at hpl
          | cons q qs =>
            refine ⟨?_, pl, ?_, hpllen⟩
            · intro p hp
              rw [List.dropLast_cons₂] at hp
              rcases List.mem_cons.mp hp with hps | hmem
              · subst hps; omega
              · exact hdrop p hmem
            · rw [List.getLast?_cons_cons]
              exact hpl

theorem chain_last_le :
    ∀ (l : List Int), List.Chain' (fun a b => b ≤ a) l →
      ∀ (r : Int), l.getLast? = some r → ∀ t ∈ l, r ≤ t := by
  intro l
  induction l with
  | nil => intro _ r hr; simp at hr
  | cons a tl ih =>
    intro hch r hr t ht
    cases tl with
    | nil =>
      simp at hr
      subst hr
      rcases List.mem_singleton.mp ht with rfl
      exact le_refl _
    | cons b tl2 =>
      have hba : b ≤ a := (List.chain'_cons.mp hch).1
      have hch2 : List.Chain' (fun a b => b ≤ a) (b :: tl2) := (List.chain'_cons.mp hch).2
      rw [List.getLast?_cons_cons] at hr
      rcases List.mem_cons.mp ht with rfl | hmem
      · exact le_trans (ih hch2 r hr b (List.mem_cons_self b tl2)) hba
      · exact ih hch2 r hr t hmem

theorem invalid_msg_ne_empty (pid : String) : ("Invalid program ID: " ++ pid) ≠ "" := by
  intro h
  have h2 := congrArg String.length h
  rw [String.length_append] at h2
  have h3 : ("Invalid program ID: " : String).length = 20 := rfl
  have h4 : ("" : String).length = 0 := rfl
  rw [h3, h4] at h2
  omega

theorem go_invalid {pid : String} (hinv : isValidProgramId pid = false) (fuel : Nat) :
    ∀ (Ts : List Transport) (lastE : Option String) (v s : Nat), Ts ≠ [] →
      getTimestampGo pid fuel Ts lastE v s =
        ⟨Except.error ("Failed to get timestamp using all configured RPC URLs: " ++
          ("Invalid program ID: " ++ pid)), v + Ts.length, s⟩ := by
  intro Ts
  induction Ts with
  | nil => intro _ _ _ h; exact absurd rfl h
  | cons T rest ih =>
    intro lastE v s _
    rw [getTimestampGo, if_neg (by rw [hinv]; exact Bool.false_ne_true)]
    cases rest with
    | nil =>
      rw [getTimestampGo, if_neg (invalid_msg_ne_empty pid)]
      rfl
    | cons T2 rest2 =>
      rw [ih _ _ _ (by exact List.cons_ne_nil T2 rest2)]
      have : v + 1 + (T2 :: rest2).length = v + (T :: T2 :: rest2).length := by
        simp [List.length_cons]
        omega
      rw [this]

theorem go_all_fail {pid : String} {fuel : Nat} (hv : isValidProgramId pid = true) :
    ∀ (Ts : List Transport) (Tl : Transport) (m : String) (lastE : Option String) (v s : Nat),
      Ts.getLast? = some Tl →
      (∀ T ∈ Ts, endpointFailureMsg pid T fuel ≠ none) →
      endpointFailureMsg pid Tl fuel = some m →
      (getTimestampGo pid fuel Ts lastE v s).result =
        Except.error ("Failed to get timestamp using all configured RPC URLs: " ++
          (if m = "" then "Unknown error" else m)) := by
  intro Ts
  induction Ts with
  | nil => intro Tl m lastE v s hlast _ _; simp at hlast
  | cons T rest ih =>
    intro Tl m lastE v s hlast hfail hm
    rw [getTimestampGo, if_pos (by rw [hv])]
    cases rest with
    | nil =>
      simp at hlast
      subst hlast
      cases hfe : findFirstTimestampBinarySearch T fuel with
      | error e =>
        have hme : m = e := by
          rw [endpointFailureMsg, hfe] at hm
          injection hm with hm'
          exact hm'.symm
        subst hme
        dsimp only
        rw [getTimestampGo]
      | ok o =>
        cases o with
        | some t =>
          exact absurd (by rw [endpointFailureMsg, hfe]) (hfail T (List.mem_singleton.mpr rfl))
        | none =>
          have hme : m = "Could not determine deployment timestamp for program: " ++ pid := by
            rw [endpointFailureMsg, hfe] at hm
            injection hm with hm'
            exact hm'.symm
          subst hme
          dsimp only
          rw [getTimestampGo]
    | cons T2 rest2 =>
      rw [List.getLast?_cons_cons] at hlast
      have hfail2 : ∀ T' ∈ T2 :: rest2, endpointFailureMsg pid T' fuel ≠ none :=
        fun T' hT' => hfail T' (List.mem_cons_of_mem T hT')
      cases hfe : findFirstTimestampBinarySearch T fuel with
      | error e => exact ih Tl m _ _ _ hlast hfail2 hm
      | ok o =>
        cases o with
        | some t =>
          exact absurd (by rw [endpointFailureMsg, hfe]) (hfail T (List.mem_cons_self T _))
        | none => exact ih Tl m _ _ _ hlast hfail2 hm

theorem cacheSound_nil (T : Transport) : CacheSound T [] := by
  intro s b h
  simp [List.lookup] at h

/-! ## Claim theorems -/

/-- C5: for every `maxAttempts ≥ 1`, the retry wrapper invokes the wrapped
operation exactly `maxAttempts` times when every invocation fails and
exactly once when the first invocation succeeds, waits
`(attempts - 1) * delay` in total, and on the final failed attempt
re-raises the underlying error unchanged. -/
theorem retry_wrapper_contract {α : Type} (op : Nat → Except String α) (errs : Nat → String)
    (maxRetries delayMs : Nat) (opName : String) (hmr : 1 ≤ maxRetries) :
    ((∀ i, op i = Except.error (errs i)) →
      retryOperation op maxRetries delayMs opName =
        ⟨Except.error (errs (maxRetries - 1)), maxRetries, (maxRetries - 1) * delayMs⟩) ∧
    (∀ a, op 0 = Except.ok a →
      retryOperation op maxRetries delayMs opName = ⟨Except.ok a, 1, 0⟩) := by
  constructor
  · intro hop
    rw [retryOperation, retryLoop_all_fail hop maxRetries 0 0 0 (by omega) (by omega)]
    simp
  · intro a ha
    rw [retryOperation, retryLoop, dif_pos (by omega : (0 : Nat) < maxRetries), ha]

/-- Witness for C5 at `maxRetries = 3`, `delay = 10`: three invocations,
the third error surfaced unchanged, 20 ms waited; and a first-attempt
success is returned after one invocation and no wait. -/
theorem retry_wrapper_contract_witness :
    retryOperation (fun i => (Except.error ("e" ++ toString i) : Except String Nat)) 3 10 "op" =
      ⟨Except.error "e2", 3, 20⟩ ∧
    retryOperation (fun _ => (Except.ok 5 : Except String Nat)) 3 10 "op" =
      ⟨Except.ok 5, 1, 0⟩ := by
  constructor
  · have h := (retry_wrapper_contract (fun i => (Except.error ("e" ++ toString i) : Except String Nat))
      (fun i => "e" ++ toString i) 3 10 "op" (by omega)).1 (fun i => rfl)
    rw [h]
    rfl
  · exact (retry_wrapper_contract (fun _ => (Except.ok 5 : Except String Nat))
      (fun _ => "") 3 10 "op" (by omega)).2 5 rfl

/-- C7: identifier validation accepts a string exactly when it is
non-empty, drawn from the 58-symbol alphabet, and decodes to exactly 32
bytes; in particular every decoded length in {0, 3, 16, 31, 33, 64} is
rejected.  (The "non-string input" part of the claim is outside a typed
embedding; validation is a pure Lean function by construction.) -/
theorem identifier_validation_characterisation (s : String) :
    (isValidProgramId s = true ↔
      (s ≠ "" ∧ s.toList.all isBase58Char = true ∧ decodedLen s = 32)) ∧
    (∀ n, n ∈ ([0, 3, 16, 31, 33, 64] : List Nat) → decodedLen s = n →
      isValidProgramId s = false) := by
  have hval : isValidProgramId s = true ↔
      (s ≠ "" ∧ s.toList.all isBase58Char = true ∧ decodedLen s = 32) := by
    rw [isValidProgramId]
    by_cases hA : s = ""
    · rw [if_pos hA]
      constructor
      · intro h; exact absurd h Bool.false_ne_true
      · rintro ⟨h1, _, _⟩; exact absurd hA h1
    · rw [if_neg hA]
      by_cases hB : s.toList.all isBase58Char = true
      · rw [if_neg (not_not_intro hB)]
        constructor
        · intro h; exact ⟨hA, hB, of_decide_eq_true h⟩
        · rintro ⟨_, _, h3⟩; exact decide_eq_true h3
      · rw [if_pos hB]
        constructor
        · intro h; exact absurd h Bool.false_ne_true
        · rintro ⟨_, h2, _⟩; exact absurd h2 hB
  refine ⟨hval, ?_⟩
  intro n hn hd
  cases hii : isValidProgramId s
  · rfl
  · exfalso
    obtain ⟨_, _, h32⟩ := hval.mp hii
    rw [hd] at h32
    subst h32
    exact absurd hn (by decide)

/-- Witness for C7: "abc" decodes to 3 bytes and is rejected. -/
theorem identifier_validation_characterisation_witness :
    decodedLen "abc" = 3 ∧ isValidProgramId "abc" = false :=
  ⟨by decide, (identifier_validation_characterisation "abc").2 3 (by decide) (by decide)⟩

/-- C10: with an empty endpoint list the discovery entry point performs no
validation and no remote call (both counters are 0) and fails with the
fixed message, whatever the identifier. -/
theorem empty_endpoint_list_result (pid : String) (fuel : Nat) :
    getTimestamp pid [] fuel =
      ⟨Except.error "Failed to get timestamp using all configured RPC URLs: Unknown error",
        0, 0⟩ := by
  rw [getTimestamp, getTimestampGo]
  rfl

/-- C2 counterexample: the thirty-two-'1' identifier is *accepted* by
validation (it decodes to the 32 zero bytes of the system program), so
the claim that it is rejected fails on the code. -/
theorem all_ones_identifier_accepted :
    isValidProgramId "11111111111111111111111111111111" = true := by decide

/-- C2 amended: the thirty-two-'1' identifier decodes to exactly 32 bytes
and passes validation, so a discovery call with it proceeds to the remote
search of the endpoint (one validation, one search started). -/
theorem all_ones_identifier_proceeds :
    isValidProgramId "11111111111111111111111111111111" = true ∧
    decodedLen "11111111111111111111111111111111" = 32 ∧
    ∀ (T : Transport) (fuel : Nat),
      (getTimestamp "11111111111111111111111111111111" [T] fuel).validations = 1 ∧
      (getTimestamp "11111111111111111111111111111111" [T] fuel).searches = 1 := by
  refine ⟨by decide, by decide, ?_⟩
  intro T fuel
  rw [getTimestamp, getTimestampGo, if_pos (by decide)]
  cases hfe : findFirstTimestampBinarySearch T fuel with
  | error e => exact ⟨rfl, rfl⟩
  | ok o => cases o with
    | some t => exact ⟨rfl, rfl⟩
    | none => exact ⟨rfl, rfl⟩

/-- C1 counterexample: with the invalid identifier "abc" and two
endpoints, the entry point validates on *both* endpoints (failover
happens) and surfaces the all-endpoints-exhausted message, which is not
the invalid-identifier message. -/
theorem invalid_identifier_failover_counterexample :
    getTimestamp "abc" [trivialTransport, trivialTransport] 0 =
      ⟨Except.error
        "Failed to get timestamp using all configured RPC URLs: Invalid program ID: abc",
        2, 0⟩ ∧
    "Failed to get timestamp using all configured RPC URLs: Invalid program ID: abc" ≠
      "Invalid program ID: abc" := by
  exact ⟨rfl, by decide⟩

/-- C1 amended: for every invalid identifier and non-empty endpoint list,
each endpoint attempt fails at validation (no search is ever started:
the search counter stays 0, while the validation counter shows one
validation per endpoint — the loop fails over through all of them), and
the surfaced failure is the all-endpoints-exhausted error with the
invalid-identifier message embedded. -/
theorem invalid_identifier_exhausts_endpoints (pid : String) (Ts : List Transport) (fuel : Nat)
    (hinv : isValidProgramId pid = false) (hne : Ts ≠ []) :
    getTimestamp pid Ts fuel =
      ⟨Except.error ("Failed to get timestamp using all configured RPC URLs: " ++
        ("Invalid program ID: " ++ pid)), Ts.length, 0⟩ := by
  rw [getTimestamp, go_invalid hinv fuel Ts none 0 0 hne, Nat.zero_add]

/-- Witness for C1's amended statement at "abc" with one endpoint. -/
theorem invalid_identifier_exhausts_endpoints_witness :
    isValidProgramId "abc" = false ∧
    getTimestamp "abc" [boomTransport] 0 =
      ⟨Except.error ("Failed to get timestamp using all configured RPC URLs: " ++
        ("Invalid program ID: " ++ "abc")), 1, 0⟩ :=
  ⟨by decide, invalid_identifier_exhausts_endpoints "abc" [boomTransport] 0 (by decide) (by simp)⟩

/-- C8: when every configured endpoint fails (its search raises an error
or yields no timestamp), the discovery entry point fails with the
aggregate message carrying the last endpoint's recorded error text (with
the JS-falsy fallback for an empty message). -/
theorem all_endpoints_fail_message (pid : String) (Ts : List Transport) (Tl : Transport)
    (m : String) (fuel : Nat) (hv : isValidProgramId pid = true)
    (hlast : Ts.getLast? = some Tl)
    (hfail : ∀ T ∈ Ts, endpointFailureMsg pid T fuel ≠ none)
    (hm : endpointFailureMsg pid Tl fuel = some m) :
    (getTimestamp pid Ts fuel).result =
      Except.error ("Failed to get timestamp using all configured RPC URLs: " ++
        (if m = "" then "Unknown error" else m)) := by
  rw [getTimestamp]
  exact go_all_fail hv Ts Tl m none 0 0 hlast hfail hm

/-- Witness for C8: one endpoint whose `getSlot` raises "boom"; the
surfaced failure ends in "boom". -/
theorem all_endpoints_fail_message_witness :
    (getTimestamp "11111111111111111111111111111111" [boomTransport] 0).result =
      Except.error "Failed to get timestamp using all configured RPC URLs: boom" := by
  have hmsg : endpointFailureMsg "11111111111111111111111111111111" boomTransport 0 =
      some "boom" := rfl
  have h := all_endpoints_fail_message "11111111111111111111111111111111" [boomTransport]
    boomTransport "boom" 0 (by decide) (by simp)
    (by
      intro T hT
      rw [List.mem_singleton] at hT
      subst hT
      rw [hmsg]
      exact Option.some_ne_none _)
    hmsg
  exact h

/-- C9: an absent block and an empty block both make the probe answer
"no evidence", and at any midpoint a "no evidence" answer or a probe
failure makes the binary search continue with `low = mid + 1` instead of
aborting. -/
theorem coarse_probe_failure_moves_up :
    (∀ (T : Transport) (slot : Int), T.getBlock slot = Except.ok none →
      checkSlotCore T slot = Except.ok false) ∧
    (∀ (T : Transport) (slot : Int) (b : Block), T.getBlock slot = Except.ok (some b) →
      b.transactions = [] → checkSlotCore T slot = Except.ok false) ∧
    (∀ (T : Transport) (low high : Int) (best : Option Int) (cache : List (Int × Bool)),
      low ≤ high → (checkSlot T ((low + high) / 2) cache).1 = Except.ok false →
      coarseLoop T low high best cache =
        coarseLoop T ((low + high) / 2 + 1) high best (checkSlot T ((low + high) / 2) cache).2) ∧
    (∀ (T : Transport) (low high : Int) (best : Option Int) (cache : List (Int × Bool))
      (e : String),
      low ≤ high → (checkSlot T ((low + high) / 2) cache).1 = Except.error e →
      coarseLoop T low high best cache =
        coarseLoop T ((low + high) / 2 + 1) high best (checkSlot T ((low + high) / 2) cache).2) := by
  refine ⟨?_, ?_, ?_, ?_⟩
  · intro T slot hb
    rw [checkSlotCore, hb]
  · intro T slot b hb ht
    rw [checkSlotCore, hb]
    dsimp only
    rw [ht]
    rfl
  · intro T low high best cache hlh hcs
    rcases hpair : checkSlot T ((low + high) / 2) cache with ⟨r, c⟩
    rw [hpair] at hcs
    dsimp only at hcs
    subst hcs
    conv_lhs => rw [coarseLoop]
    rw [dif_pos hlh, hpair]
  · intro T low high best cache e hlh hcs
    rcases hpair : checkSlot T ((low + high) / 2) cache with ⟨r, c⟩
    rw [hpair] at hcs
    dsimp only at hcs
    subst hcs
    conv_lhs => rw [coarseLoop]
    rw [dif_pos hlh, hpair]

/-- Witness for C9: the absent-block stub, the empty-block stub, and one
binary-search step over `[1, 1]` continuing at `low = 2` after a negative
and after a failed probe. -/
theorem coarse_probe_failure_moves_up_witness :
    checkSlotCore noBlocksTransport 1 = Except.ok false ∧
    checkSlotCore emptyBlockTransport 1 = Except.ok false ∧
    coarseLoop noBlocksTransport 1 1 none [] =
      coarseLoop noBlocksTransport 2 1 none (checkSlot noBlocksTransport 1 []).2 ∧
    coarseLoop boomTransport 1 1 none [] =
      coarseLoop boomTransport 2 1 none (checkSlot boomTransport 1 []).2 := by
  refine ⟨?_, ?_, ?_, ?_⟩
  · exact coarse_probe_failure_moves_up.1 noBlocksTransport 1 rfl
  · exact coarse_probe_failure_moves_up.2.1 emptyBlockTransport 1 ⟨[]⟩ rfl rfl
  · exact coarse_probe_failure_moves_up.2.2.1 noBlocksTransport 1 1 none [] (by norm_num) rfl
  · exact coarse_probe_failure_moves_up.2.2.2 boomTransport 1 1 none [] "boom" (by norm_num) rfl

/-- C3: for a transport whose probe is a monotone boundary predicate at
height `H` with `1 ≤ H ≤ latestHeight`, the coarse binary search over
`[1, latestHeight]` returns candidate `H`; and `H` is at or below every
height whose probe shows positive evidence. -/
theorem coarse_locator_boundary (T : Transport) (H latest : Int)
    (h1 : 1 ≤ H) (h2 : H ≤ latest) (hslot : T.getSlot = Except.ok latest)
    (hp : ∀ s, checkSlotFresh T s = Except.ok (decide (H ≤ s))) :
    coarseCandidate T = Except.ok (some H) ∧
    (∀ s, checkSlotFresh T s = Except.ok true → H ≤ s) := by
  have hcore : ∀ s, checkSlotCore T s = Except.ok (decide (H ≤ s)) := fun s => by
    rw [← checkSlotFresh_eq_core]
    exact hp s
  constructor
  · rw [coarseCandidate, hslot]
    dsimp only
    rw [coarseLoop_eq_pure ((latest + 1 - 1).toNat) 1 latest none [] rfl (cacheSound_nil T)]
    rw [coarsePure_boundary hcore ((latest + 1 - 1).toNat) 1 latest none rfl h1 h2]
  · intro s hs
    have hps := hp s
    rw [hs] at hps
    injection hps with h'
    exact of_decide_eq_true h'.symm

/-- Witness for C3: the boundary stub with `H = 2`, `latest = 3` yields
candidate 2. -/
theorem coarse_locator_boundary_witness :
    coarseCandidate boundaryTransport = Except.ok (some 2) :=
  (coarse_locator_boundary boundaryTransport 2 3 (by norm_num) (by norm_num) rfl
    (fun s => by
      by_cases h2 : (2 : Int) ≤ s <;>
        simp [checkSlotFresh_eq_core, checkSlotCore, boundaryTransport, h2])).1

/-- C6 amended: when the coarse binary search records no candidate slot,
`findFirstTimestampBinarySearch` returns "not found" directly — no fine
pagination (from the tip or anywhere else) is run. -/
theorem coarse_none_returns_null (T : Transport) (latest : Int) (fuel : Nat)
    (hslot : T.getSlot = Except.ok latest)
    (hnone : (coarseLoop T 1 latest none []).1 = none) :
    findFirstTimestampBinarySearch T fuel = Except.ok none := by
  rw [findFirstTimestampBinarySearch, coarseCandidate, hslot]
  dsimp only
  rw [hnone]

/-- Witness for C6's amended statement on the no-blocks stub. -/
theorem coarse_none_returns_null_witness :
    findFirstTimestampBinarySearch noBlocksTransport 1 = Except.ok none := by
  apply coarse_none_returns_null noBlocksTransport 2 1 rfl
  rw [coarseLoop_eq_pure (((2 : Int) + 1 - 1).toNat) 1 2 none [] rfl (cacheSound_nil _)]
  exact coarsePure_all_false (fun s _ => rfl) _ 1 none rfl

/-- C6 counterexample: on the no-blocks stub the coarse step finds
nothing and the engine returns "not found", although the fine locator
started from the tip (as the spec prescribes for this case) would find
timestamp 42 — so the fine locator does *not* still run. -/
theorem coarse_none_no_fine_from_tip :
    findFirstTimestampBinarySearch noBlocksTransport 1 = Except.ok none ∧
    specFineLocatorFromTip noBlocksTransport 1 = some 42 := by
  constructor
  · have hnone : (coarseLoop noBlocksTransport 1 2 none []).1 = none := by
      rw [coarseLoop_eq_pure (((2 : Int) + 1 - 1).toNat) 1 2 none [] rfl (cacheSound_nil _)]
      exact coarsePure_all_false (fun s _ => rfl) _ 1 none rfl
    have hcc : coarseCandidate noBlocksTransport = Except.ok none := by
      rw [coarseCandidate]
      show Except.ok ((coarseLoop noBlocksTransport 1 2 none []).1) = Except.ok none
      rw [hnone]
    rw [findFirstTimestampBinarySearch, hcc]
  · rfl

/-- C4 amended: over any run of pages the pagination loop consumes, the
returned value is the last recorded per-page oldest-entry timestamp (a
value is recorded when it is truthy, i.e. non-null and non-zero), every
non-final consumed page has at least the limit length and the final one
is shorter than the limit (the loop stops exactly there), and — provided
the recorded timestamps are non-increasing across pages, as the
newest-first transport contract guarantees — the returned timestamp is
at or below every recorded timestamp. -/
theorem fine_locator_pagination (T : Transport) (fuel : Nat) (cursor : Option String)
    (ps : List (List SigInfo))
    (hcons : consumedPages? T fuel cursor = some ps) :
    pageLoop T fuel cursor none = lastObservedOr ps none ∧
    (∀ p ∈ ps.dropLast, 1000 ≤ p.length) ∧
    (∃ pl, ps.getLast? = some pl ∧ pl.length < 1000) ∧
    (List.Chain' (fun a b => b ≤ a) (recordedTimes ps) →
      ∀ r, pageLoop T fuel cursor none = some r → ∀ t ∈ recordedTimes ps, r ≤ t) := by
  have h1 := pageLoop_consumed fuel cursor ps none hcons
  obtain ⟨hdrop, pl, hpl, hpllen⟩ := consumedPages_shape fuel cursor ps hcons
  refine ⟨h1, hdrop, ⟨pl, hpl, hpllen⟩, ?_⟩
  intro hmono r hr t ht
  rw [h1, lastObservedOr] at hr
  cases hg : (recordedTimes ps).getLast? with
  | none =>
    rw [hg] at hr
    exact absurd hr (by simp)
  | some x =>
    rw [hg] at hr
    injection hr with hr'
    subst hr'
    exact chain_last_le _ hmono _ hg t ht

set_option maxRecDepth 100000 in
/-- Witness for C4's amended statement: two pages with non-increasing
recorded timestamps 9 then 7; the loop returns 7, which is at or below
the recorded 9. -/
theorem fine_locator_pagination_witness :
    pageLoop fallingPagesTransport 2 none none = some 7 ∧ (7 : Int) ≤ 9 := by
  have hrec : recordedTimes [fullPageNine, fallingTail] = [9, 7] := rfl
  have h := fine_locator_pagination fallingPagesTransport 2 none [fullPageNine, fallingTail] rfl
  have h1 : pageLoop fallingPagesTransport 2 none none = some 7 := by
    rw [h.1]
    rfl
  refine ⟨h1, ?_⟩
  exact h.2.2.2
    (by rw [hrec]; exact List.chain'_cons.mpr ⟨by norm_num, List.chain'_singleton 7⟩)
    7 h1 9 (by rw [hrec]; simp)

set_option maxRecDepth 100000 in
/-- C4 counterexample: a transport whose second (short) page carries a
larger timestamp than the first full page's; the loop consumes both
pages, observes 1 on the first page, and returns 5 — so the returned
timestamp is *not* at or below every timestamp observed in a consumed
page. -/
theorem fine_locator_not_monotone_counterexample :
    consumedPages? risingPagesTransport 2 none = some [fullPageOne, risingTail] ∧
    pageLoop risingPagesTransport 2 none none = some 5 ∧
    pageObs fullPageOne = some 1 ∧
    ¬ ((5 : Int) ≤ 1) :=
  ⟨rfl, rfl, rfl, by decide⟩
